import Mathlib

/-!
Verification development for the FlowLens workflow-capture engine.

The definitions below are a shallow embedding of the Python sources:

* `src/capture/playwright_capture.py` — run controller (`capture_workflow`),
  loop guard (`_is_looping`), action executor (`_execute_action`), semantic
  click tier (`_execute_click` / `_score_element_match`), keyword extractor
  (`_extract_keywords`), decision-parse fallback (`_parse_decision`), and the
  type-target split (`_execute_type`).
* `src/core/config.py` — configuration loading and validation.

Python strings are modelled as Lean `String`; `str.lower()` as
`String.toLower`, `str.strip()` as `String.trim`, `str.split()` as
whitespace-splitting with empty pieces dropped, and the substring operator
`in` as `strContains`.  Browser driver primitives that can raise are
modelled as `Except`-valued outcomes supplied by a `Driver` record; the
decision oracle is modelled as a per-step list of proposed decisions paired
with the result the executor would produce for them.
-/

namespace FlowLens

/-- Substring occurrence on character lists: mirrors the Python `in`
operator on strings (the empty needle occurs in every haystack). -/
def listContains (needle : List Char) : List Char → Bool
  | [] => needle.isEmpty
  | c :: cs => needle.isPrefixOf (c :: cs) || listContains needle cs

/-- Occurrence of `needle` inside `hay`, as Python's `needle in hay`. -/
def strContains (hay needle : String) : Bool :=
  listContains needle.data hay.data

/-- ASCII lowercasing per character, as Python's `str.lower()` on the
ASCII inputs this engine handles. -/
def toLowerStr (s : String) : String :=
  String.mk (s.data.map Char.toLower)

/-- Removal of leading and trailing whitespace, as Python's `str.strip()`
with no argument. -/
def trimStr (s : String) : String :=
  String.mk (((s.data.dropWhile Char.isWhitespace).reverse.dropWhile Char.isWhitespace).reverse)

/-- Word accumulator for `pyWords`: split at whitespace runs, dropping
empty pieces. -/
def pyWordsAux : List Char → List Char → List String
  | [], acc => if acc.isEmpty then [] else [String.mk acc.reverse]
  | c :: cs, acc =>
    if c.isWhitespace then
      if acc.isEmpty then pyWordsAux cs []
      else String.mk acc.reverse :: pyWordsAux cs []
    else pyWordsAux cs (c :: acc)

/-- Whitespace split with empty pieces dropped, as Python's `str.split()`
with no argument. -/
def pyWords (s : String) : List String :=
  pyWordsAux s.data []

/-- Join with a separator, as Python's `sep.join(parts)`. -/
def joinWith (sep : String) : List String → String
  | [] => ""
  | [x] => x
  | x :: xs => x ++ sep ++ joinWith sep xs

/-- Target normalization used by the loop guard:
`target.lower().strip()` in `_is_looping`. -/
def normTarget (s : String) : String :=
  trimStr (toLowerStr s)

/-- A fully-defaulted action decision, as produced by `_parse_decision`
(the `location` hint is omitted: no claim depends on it). -/
structure Decision where
  action : String
  target : String
  text : String
  description : String
deriving DecidableEq

/-- One entry of the append-only action history kept by
`capture_workflow`. -/
structure HistEntry where
  step : Nat
  action : String
  target : String
  text : String
  description : String
  status : String
deriving DecidableEq

/-- Embeds `PlaywrightCapture._is_looping`: with fewer than 3 history
entries there is no loop; otherwise the last 3 entries are compared with
the current decision on action kind and normalized target, and the
all-succeeded check merely logs before returning `true` either way. -/
def isLooping (history : List HistEntry) (current : Decision) : Bool :=
  if history.length < 3 then false
  else
    let recent := history.drop (history.length - 3)
    let sameAction := recent.all fun e =>
      e.action == current.action && normTarget e.target == normTarget current.target
    if !sameAction then false
    else
      let allSucceeded := recent.all fun e => e.status == "success"
      if allSucceeded then true else true

/-- One step of oracle input to the run loop: the decision proposed for
this step, paired with the boolean that `_execute_action` would return if
it is invoked on the current page. -/
structure StepInput where
  decision : Decision
  execSuccess : Bool
deriving DecidableEq

/-- The mutable locals of `capture_workflow` that survive across loop
iterations. -/
structure RunState where
  stepCount : Nat
  successfulActions : Nat
  actionHistory : List HistEntry
  workflowCompleted : Bool
  failureReason : String
deriving DecidableEq

/-- Initial run state: counters at zero, empty history, not completed,
empty failure reason. -/
def initRunState : RunState :=
  { stepCount := 0, successfulActions := 0, actionHistory := []
    workflowCompleted := false, failureReason := "" }

/-- The history entry appended when a `done` decision is rejected by the
minimum-progress gate in `capture_workflow`. -/
def doneRejectedEntry (step : Nat) : HistEntry :=
  { step := step, action := "done", target := "", text := ""
    description := "Attempted to mark done before completing the required number of actions."
    status := "rejected" }

/-- The history entry appended after executing a non-`done` decision. -/
def mkHistEntry (step : Nat) (d : Decision) (success : Bool) : HistEntry :=
  { step := step, action := d.action, target := d.target, text := d.text
    description := d.description
    status := if success then "success" else "failed" }

/-- Embeds the `for step in range(1, max_steps + 1)` loop of
`capture_workflow`.  `inputs` supplies one oracle decision (plus the
executor outcome it would have) per remaining step of the budget;
`stepNo` is the 1-based number of the next step.  The threshold is kept
as a `Nat`, matching the positive configured values. -/
def runLoop (minSuccess : Nat) : List StepInput → Nat → RunState → RunState
  | [], _, s => s
  | inp :: rest, stepNo, s =>
    let s0 := { s with stepCount := stepNo }
    if inp.decision.action == "done" then
      if s0.successfulActions < minSuccess then
        runLoop minSuccess rest (stepNo + 1)
          { s0 with actionHistory := s0.actionHistory ++ [doneRejectedEntry stepNo] }
      else
        { s0 with workflowCompleted := true }
    else if isLooping s0.actionHistory inp.decision then
      { s0 with failureReason := "loop_detected" }
    else
      let s1 :=
        if inp.execSuccess then
          { s0 with successfulActions := s0.successfulActions + 1 }
        else if s0.failureReason == "" then
          { s0 with failureReason := "action_failed" }
        else s0
      runLoop minSuccess rest (stepNo + 1)
        { s1 with actionHistory := s1.actionHistory ++ [mkHistEntry stepNo inp.decision inp.execSuccess] }

/-- Embeds the two post-loop classification statements of
`capture_workflow`: an incomplete run with no recorded reason becomes
`max_steps_reached`, and afterwards a zero-success run with still no
recorded reason becomes `no_actions_executed`. -/
def finalizeState (s : RunState) : RunState :=
  let s1 :=
    if !s.workflowCompleted && s.failureReason == "" then
      { s with failureReason := "max_steps_reached" }
    else s
  if s1.successfulActions == 0 && s1.failureReason == "" then
    { s1 with failureReason := "no_actions_executed" }
  else s1

/-- The structured result dictionary returned by `capture_workflow`
(restricted to the fields the claims mention). -/
structure RunOutcome where
  success : Bool
  reason : String
  totalSteps : Nat
  successfulActions : Nat
  actionHistory : List HistEntry
deriving DecidableEq

/-- Embeds the return branches of `capture_workflow`: a run that is not
completed, or completed with zero successful actions, returns the failure
record carrying `failure_reason`; otherwise the success record with
reason `completed`. -/
def runOutcome (s : RunState) : RunOutcome :=
  if !s.workflowCompleted || s.successfulActions == 0 then
    { success := false, reason := s.failureReason, totalSteps := s.stepCount
      successfulActions := s.successfulActions, actionHistory := s.actionHistory }
  else
    { success := true, reason := "completed", totalSteps := s.stepCount
      successfulActions := s.successfulActions, actionHistory := s.actionHistory }

/-- A whole run of `capture_workflow`: the step loop from the initial
state followed by terminal classification, over a budget of
`inputs.length` steps. -/
def captureWorkflow (minSuccess : Nat) (inputs : List StepInput) : RunOutcome :=
  runOutcome (finalizeState (runLoop minSuccess inputs 1 initRunState))

/-- Stable insertion (descending by `key`) used to model Python's stable
`list.sort(key=..., reverse=True)`: `x` is placed before the first element
whose key is not larger, so equal-key elements keep their original order. -/
def insertDescKey {α : Type} (key : α → Nat) (x : α) : List α → List α
  | [] => [x]
  | y :: ys => if key x < key y then y :: insertDescKey key x ys else x :: y :: ys

/-- Stable descending sort by `key`, modelling Python's stable
`list.sort(key=..., reverse=True)`. -/
def sortDescKey {α : Type} (key : α → Nat) : List α → List α
  | [] => []
  | x :: xs => insertDescKey key x (sortDescKey key xs)

/-- Embeds `PlaywrightCapture._score_element_match`: lowercase the element
text, then for each keyword occurring in it add 100 / 50 / 10 according to
the keyword's word count (3+ / 2 / 1) plus a 200 bonus when the keyword
equals the stripped element text. -/
def scoreElementMatch (elementText : String) (keywords : List String) : Nat :=
  let et := toLowerStr elementText
  keywords.foldl
    (fun score keyword =>
      if strContains et keyword then
        let wordCount := (pyWords keyword).length
        let score := score +
          (if 3 ≤ wordCount then 100 else if wordCount == 2 then 50 else 10)
        if keyword == trimStr et then score + 200 else score
      else score)
    0

/-- Embeds the candidate-collection loop of the semantic tier in
`_execute_click`: elements (given by their combined aria-label, inner text
and title) with empty combined text are skipped, the rest are scored, and
only strictly positive scores are kept. -/
def semanticCandidates (elements : List String) (keywords : List String) :
    List (Nat × String) :=
  elements.filterMap fun combined =>
    if combined == "" then none
    else
      let score := scoreElementMatch combined keywords
      if 0 < score then some (score, combined) else none

/-- Embeds the selection step of the semantic tier in `_execute_click`:
sort candidates by score descending (stable), take the top one, and click
it only when its score is at least 50. -/
def semanticPick (elements : List String) (keywords : List String) :
    Option (Nat × String) :=
  match sortDescKey Prod.fst (semanticCandidates elements keywords) with
  | [] => none
  | top :: _ => if 50 ≤ top.1 then some top else none

/-- The fixed stop-word set of `_extract_keywords`. -/
def stopwords : List String :=
  ["the", "a", "an", "in", "on", "at", "to", "for", "of", "with",
   "button", "icon", "click", "menu", "section", "page"]

/-- Embeds the n-gram loop of `_extract_keywords` for one window size:
`for idx in range(len(words) - size + 1)` over the original token list,
keeping a window only when none of its words is a stop word (the guard
`if len(words) < size: continue` is the outer conditional). -/
def gramChunks (words : List String) (size : Nat) : List String :=
  if words.length < size then []
  else
    (List.range (words.length - size + 1)).filterMap fun idx =>
      let chunk := (words.drop idx).take size
      if chunk.all (fun w => !(stopwords.contains w)) then
        some (joinWith " " chunk)
      else none

/-- Embeds the seen-set de-duplication loop at the end of
`_extract_keywords`: keep the first occurrence of each keyword. -/
def dedupKeep (seen : List String) : List String → List String
  | [] => []
  | x :: xs =>
    if seen.contains x then dedupKeep seen xs
    else x :: dedupKeep (x :: seen) xs

/-- Embeds `PlaywrightCapture._extract_keywords`: lowercase and split the
text, collect 3-word then 2-word windows free of stop words, append the
individual non-stop-word tokens longer than 2 characters sorted by
decreasing length (stable), and de-duplicate keeping first occurrences. -/
def extractKeywords (text : String) : List String :=
  if text == "" then []
  else
    let words := pyWords (toLowerStr text)
    let grams := gramChunks words 3 ++ gramChunks words 2
    let individualWords := sortDescKey String.length
      (words.filter fun w => !(stopwords.contains w) && 2 < w.length)
    dedupKeep [] (grams ++ individualWords)

/-- Contiguous windows of length `size`, written structurally: a window
starting at each position whose suffix is long enough. -/
def slideWindows (size : Nat) : List String → List (List String)
  | [] => []
  | w :: ws =>
    if (w :: ws).length < size then []
    else (w :: ws).take size :: slideWindows size ws

/-- The n-gram clause in the wording forced by the counterexample: all
contiguous `size`-word windows of the original token sequence, kept only
when every word of the window is outside the stop-word set, each joined by
single spaces. -/
def gramChunksSpec (size : Nat) (words : List String) : List String :=
  ((slideWindows size words).filter fun chunk =>
    chunk.all fun w => !(stopwords.contains w)).map
    fun chunk => joinWith " " chunk

/-- De-duplication while preserving first occurrence, written as the
usual recursive description: keep the head and drop its later copies. -/
def dedupSpec : List String → List String
  | [] => []
  | x :: xs => x :: dedupSpec (xs.filter fun y => !(y == x))
termination_by l => l.length
decreasing_by
  simp only [List.length_cons]
  exact Nat.lt_succ_of_le (List.length_filter_le _ xs)

/-- The keyword-extraction pipeline as the amended claim words it:
lowercase and whitespace-split the text, generate all contiguous 3-word
then 2-word n-grams of the original token sequence keeping only those
whose words all avoid the stop-word set, append the individual
non-stop-word tokens longer than 2 characters sorted by decreasing length
with original order as tiebreak, and de-duplicate preserving first
occurrence. -/
def extractKeywordsSpec (text : String) : List String :=
  if text == "" then []
  else
    let words := pyWords (toLowerStr text)
    let grams := gramChunksSpec 3 words ++ gramChunksSpec 2 words
    let individualWords := sortDescKey String.length
      (words.filter fun w => !(stopwords.contains w) && 2 < w.length)
    dedupSpec (grams ++ individualWords)

/-- Outcomes supplied by the page driver for the primitives one step may
invoke.  A `Bool` models a call whose own internals already catch every
exception (`_execute_click`, `_execute_type` try each strategy under its
own handler and return a boolean); an `Except` models a primitive that may
raise into `_execute_action`'s handler (`page.goto`, `page.wait_for_timeout`,
and the unguarded tail of `_wait_for_state_change`). -/
structure Driver where
  clickOutcome : Bool
  stateChangeOutcome : Except String Bool
  typeOutcome : Bool
  gotoOutcome : Except String Unit
  waitOutcome : Except String Unit

/-- The body of the `try` block of `PlaywrightCapture._execute_action`:
dispatch on the action kind, invoking the state-change verifier after a
successful click, and fall through to `False` on an unknown kind.  An
`Except.error` is an exception escaping the block. -/
def executeActionE (d : Driver) (dec : Decision) : Except String Bool :=
  if dec.action == "click" then
    if d.clickOutcome then do
      let _ ← d.stateChangeOutcome
      pure d.clickOutcome
    else pure d.clickOutcome
  else if dec.action == "type" then
    pure d.typeOutcome
  else if dec.action == "navigate" then do
    let _ ← d.gotoOutcome
    pure true
  else if dec.action == "wait" then do
    let _ ← d.waitOutcome
    pure true
  else
    pure false

/-- Embeds `PlaywrightCapture._execute_action` including its
`except Exception` handler: any exception escaping the body is converted
to a `False` return, so the caller always receives a boolean. -/
def executeAction (d : Driver) (dec : Decision) : Bool :=
  match executeActionE d dec with
  | .ok b => b
  | .error _ => false

/-- The literal the extraction regex of `_parse_decision` requires
inside the braces: the word action surrounded by double quotes. -/
def actionLit : List Char := ['"', 'a', 'c', 't', 'i', 'o', 'n', '"']

/-- One anchored attempt of the extraction regex of `_parse_decision`
at the head of `l`: an opening brace, then non-brace characters, then
the quoted word action, then non-brace characters, then a closing
brace.  Both starred groups draw from the same maximal non-brace run
after the opening brace, and the quoted word — itself brace-free — must
lie inside that run, so greedy backtracking cannot move the closing
brace: the attempt succeeds exactly when the run is terminated by a
closing brace and contains the quoted word, and the match then spans
from the opening brace to that closing brace. -/
def matchBraceAt (l : List Char) : Option (List Char) :=
  match l with
  | '{' :: rest =>
    let run := rest.takeWhile fun c => !(c == '{' || c == '}')
    let after := rest.dropWhile fun c => !(c == '{' || c == '}')
    match after with
    | '}' :: _ =>
      if listContains actionLit run then some ('{' :: (run ++ ['}'])) else none
    | _ => none
  | _ => none

/-- Leftmost search of the extraction regex of `_parse_decision`, as
Python's `re.search`: anchored attempts at every start position from
the left, returning the first success. -/
def searchActionBrace : List Char → Option (List Char)
  | [] => none
  | c :: cs =>
    match matchBraceAt (c :: cs) with
    | some m => some m
    | none => searchActionBrace cs

/-- The text the recovery branch of `_parse_decision` operates on: the
stripped response text, replaced by the first regex-extracted brace
substring containing the quoted word action when such a substring
exists. -/
def recoveryText (text : String) : String :=
  match searchActionBrace (trimStr text).data with
  | some m => String.mk m
  | none => trimStr text

/-- Embeds the keyword-inference fallback of
`PlaywrightCapture._parse_decision` (its `except` branch, reached when
`json.loads` fails) together with the trailing `setdefault` calls.  The
branches scan, in order, the lowercase form of the text left by the
regex extraction — the extracted brace substring when the regex
matched, the stripped response otherwise. -/
def parseDecisionFallback (text : String) : Decision :=
  let textLower := toLowerStr (recoveryText text)
  if ["done", "complete", "success"].any (fun w => strContains textLower w) then
    { action := "done", target := "", text := ""
      description := "Inferred completion from response" }
  else if ["login", "sign in", "authenticate"].any (fun w => strContains textLower w) then
    { action := "done", target := "", text := ""
      description := "Login required - stopping" }
  else if strContains textLower "click" && strContains textLower "next" then
    { action := "click", target := "Next", text := ""
      description := "Inferred from response" }
  else if strContains textLower "click" && strContains textLower "submit" then
    { action := "click", target := "Submit", text := ""
      description := "Inferred from response" }
  else
    { action := "done", target := "", text := ""
      description := "Parse error - stopping workflow" }

/-- Split at the first `|`, as Python's `target.split("|", 1)` on a string
containing a `|`: everything before the first bar, and everything after
it (later bars kept). -/
def splitFirstPipe : List Char → List Char × List Char
  | [] => ([], [])
  | c :: cs =>
    if c == '|' then ([], cs)
    else
      let r := splitFirstPipe cs
      (c :: r.1, r.2)

/-- Embeds the target/text preprocessing at the top of
`PlaywrightCapture._execute_type`: when the text is empty and the target
contains a `|`, split the target at the first `|` into target and text;
then default a still-empty text to the placeholder value. -/
def resolveTypeText (target text : String) : String × String :=
  let p :=
    if text == "" && target.data.contains '|' then
      (String.mk (splitFirstPipe target.data).1, String.mk (splitFirstPipe target.data).2)
    else (target, text)
  if p.2 == "" then (p.1, "Test Project") else p

/-- Python `int(...)` applied to a digit run: `none` when empty or when a
non-digit appears. -/
def pyIntDigits : List Char → Option Nat
  | [] => none
  | cs => cs.foldl
      (fun acc c => acc.bind fun n =>
        if c.isDigit then some (n * 10 + (c.toNat - 48)) else none)
      (some 0)

/-- Python `int(str)`: strip whitespace, allow one optional sign, then
require a non-empty digit run (a failure models the `ValueError`). -/
def pyIntParse (s : String) : Option Int :=
  match (trimStr s).data with
  | '-' :: rest => (pyIntDigits rest).map fun n => -(n : Int)
  | '+' :: rest => (pyIntDigits rest).map fun n => (n : Int)
  | t => (pyIntDigits t).map fun n => (n : Int)

/-- Python `os.getenv(name, default)` over an environment map. -/
def getenvOr (env : String → Option String) (name default : String) : String :=
  (env name).getD default

/-- The configuration values bound by the `Config` class body in
`src/core/config.py` (restricted to the fields the claims mention). -/
structure ConfigState where
  anthropicApiKey : Option String
  outputDir : String
  maxSteps : Int
  minSuccessfulActions : Int
deriving DecidableEq

/-- Embeds evaluation of the `Config` class body: read the environment
with the source defaults and convert the two numeric values with `int`;
`none` models the `ValueError` that aborts the import when a value is not
an integer literal.  No other check is applied to the numbers. -/
def loadConfig (env : String → Option String) : Option ConfigState :=
  match pyIntParse (getenvOr env "MAX_STEPS" "15"),
        pyIntParse (getenvOr env "MIN_SUCCESSFUL_ACTIONS" "2") with
  | some maxSteps, some minActs =>
    some { anthropicApiKey := env "ANTHROPIC_API_KEY"
           outputDir := getenvOr env "OUTPUT_DIR" "output"
           maxSteps := maxSteps, minSuccessfulActions := minActs }
  | _, _ => none

/-- Embeds `Config.validate`: raise when the API key is unset or empty
(Python falsiness), otherwise create the output directory and return
`True`.  The numeric fields are not inspected. -/
def configValidate (c : ConfigState) : Except String Bool :=
  if c.anthropicApiKey.getD "" == "" then
    .error "ANTHROPIC_API_KEY not set in environment"
  else
    .ok true

/-- C1: a `done` decision is accepted as terminal exactly when the count
of successful actions has reached the configured minimum; the accepted
case classifies the run as a completed success, while the rejected case
appends a `rejected` history entry, consumes the step, and continues the
loop.  The closed conjunct shows the `MIN_SUCCESSFUL_ACTIONS = 2` runs of
the claim: a `done` at one success is rejected and the run continues to a
`done` at two successes, which completes the run. -/
theorem done_gate (minSuccess : Nat) (d : Decision) (b : Bool)
    (rest : List StepInput) (stepNo : Nat) (s : RunState)
    (hmin : 0 < minSuccess) (hdone : d.action = "done") :
    (minSuccess ≤ s.successfulActions →
      runLoop minSuccess (⟨d, b⟩ :: rest) stepNo s
          = { s with stepCount := stepNo, workflowCompleted := true } ∧
        (runOutcome (finalizeState
            { s with stepCount := stepNo, workflowCompleted := true })).success = true ∧
        (runOutcome (finalizeState
            { s with stepCount := stepNo, workflowCompleted := true })).reason = "completed") ∧
    (s.successfulActions < minSuccess →
      runLoop minSuccess (⟨d, b⟩ :: rest) stepNo s
          = runLoop minSuccess rest (stepNo + 1)
              { s with stepCount := stepNo
                       actionHistory := s.actionHistory ++ [doneRejectedEntry stepNo] }) ∧
    captureWorkflow 2
        [⟨⟨"click", "A", "", ""⟩, true⟩, ⟨⟨"done", "", "", ""⟩, true⟩,
          ⟨⟨"click", "B", "", ""⟩, true⟩, ⟨⟨"done", "", "", ""⟩, true⟩]
      = { success := true, reason := "completed", totalSteps := 4, successfulActions := 2
          actionHistory := [mkHistEntry 1 ⟨"click", "A", "", ""⟩ true, doneRejectedEntry 2,
            mkHistEntry 3 ⟨"click", "B", "", ""⟩ true] } := by
  refine ⟨?_, ?_, ?_⟩
  · intro hge
    have hnlt : ¬ (s.successfulActions < minSuccess) := Nat.not_lt.mpr hge
    have hne : s.successfulActions ≠ 0 :=
      Nat.pos_iff_ne_zero.mp (Nat.lt_of_lt_of_le hmin hge)
    refine ⟨?_, ?_, ?_⟩
    · simp [runLoop, hdone, hnlt]
    · simp [finalizeState, runOutcome, hne]
    · simp [finalizeState, runOutcome, hne]
  · intro hlt
    simp [runLoop, hdone, hlt]
  · decide

/-- Closed instance of `done_gate`: from two successful actions, a `done`
decision at threshold 2 terminates the loop with the completed flag
set. -/
theorem done_gate_witness :
    runLoop 2 [⟨⟨"done", "", "", ""⟩, true⟩] 3 ⟨2, 2, [], false, ""⟩
      = { stepCount := 3, successfulActions := 2, actionHistory := []
          workflowCompleted := true, failureReason := "" } :=
  ((done_gate 2 ⟨"done", "", "", ""⟩ true [] 3 ⟨2, 2, [], false, ""⟩
      (by decide) rfl).1 (by decide)).1

/-- C2: the loop guard fires exactly when the history has at least 3
entries and each of the last 3 matches the proposed decision on action
kind and normalized (lowercased, trimmed) target — the `success` status
of those entries playing no role — and a firing guard terminates the loop
with reason `loop_detected` before the proposed action is executed (the
history does not grow).  The closed conjuncts check the two instances of
the claim. -/
theorem loop_guard (history : List HistEntry) (cur : Decision)
    (minSuccess : Nat) (b : Bool) (rest : List StepInput) (stepNo : Nat) (s : RunState)
    (hnotdone : cur.action ≠ "done") (hhist : s.actionHistory = history) :
    (isLooping history cur = true ↔
      3 ≤ history.length ∧
        ∀ e ∈ history.drop (history.length - 3),
          e.action = cur.action ∧ normTarget e.target = normTarget cur.target) ∧
    (isLooping history cur = true →
      runLoop minSuccess (⟨cur, b⟩ :: rest) stepNo s
        = { s with stepCount := stepNo, failureReason := "loop_detected" }) ∧
    isLooping
      [⟨1, "click", "Next", "", "", "success"⟩, ⟨2, "click", "Next", "", "", "success"⟩,
        ⟨3, "click", "Next", "", "", "success"⟩] ⟨"click", "next", "", ""⟩ = true ∧
    isLooping
      [⟨1, "click", "A", "", "", "success"⟩, ⟨2, "click", "B", "", "", "success"⟩,
        ⟨3, "click", "A", "", "", "success"⟩] ⟨"click", "A", "", ""⟩ = false := by
  subst hhist
  refine ⟨?_, ?_, by decide, by decide⟩
  · unfold isLooping
    by_cases hlen : s.actionHistory.length < 3
    · simp only [if_pos hlen]
      constructor
      · intro h
        exact absurd h (by simp)
      · rintro ⟨h3, -⟩
        omega
    · simp only [if_neg hlen, ite_self]
      constructor
      · intro h
        refine ⟨Nat.not_lt.mp hlen, ?_⟩
        by_cases hsa : (s.actionHistory.drop (s.actionHistory.length - 3)).all
            (fun e => e.action == cur.action &&
              normTarget e.target == normTarget cur.target) = true
        · intro e he
          have := List.all_eq_true.mp hsa e he
          simp only [Bool.and_eq_true, beq_iff_eq] at this
          exact this
        · rw [Bool.not_eq_true] at hsa
          rw [hsa] at h
          simp at h
      · rintro ⟨-, hall⟩
        have hsa : (s.actionHistory.drop (s.actionHistory.length - 3)).all
            (fun e => e.action == cur.action &&
              normTarget e.target == normTarget cur.target) = true := by
          refine List.all_eq_true.mpr fun e he => ?_
          simp only [Bool.and_eq_true, beq_iff_eq]
          exact hall e he
        rw [hsa]
        simp
  · intro hloop
    simp [runLoop, hnotdone, hloop]

/-- Closed instance of `loop_guard`: with three identical `click Next`
entries in the history, a proposed `click next` terminates the loop with
reason `loop_detected` and an unchanged history. -/
theorem loop_guard_witness :
    runLoop 2
        [⟨⟨"click", "next", "", ""⟩, true⟩] 4
        ⟨3, 0,
          [⟨1, "click", "Next", "", "", "failed"⟩, ⟨2, "click", "Next", "", "", "failed"⟩,
            ⟨3, "click", "Next", "", "", "failed"⟩], false, ""⟩
      = { stepCount := 4, successfulActions := 0
          actionHistory :=
            [⟨1, "click", "Next", "", "", "failed"⟩, ⟨2, "click", "Next", "", "", "failed"⟩,
              ⟨3, "click", "Next", "", "", "failed"⟩]
          workflowCompleted := false, failureReason := "loop_detected" } :=
  (loop_guard _ ⟨"click", "next", "", ""⟩ 2 true [] 4 _
      (by decide) rfl).2.1 (by decide)

/-- Membership through the stable descending insertion. -/
theorem mem_insertDescKey {α : Type} (key : α → Nat) (x y : α) :
    ∀ l, y ∈ insertDescKey key x l ↔ y = x ∨ y ∈ l
  | [] => by simp [insertDescKey]
  | z :: zs => by
    unfold insertDescKey
    by_cases h : key x < key z
    · simp only [if_pos h, List.mem_cons, mem_insertDescKey key x y zs]
      tauto
    · simp only [if_neg h, List.mem_cons]

/-- Membership through the stable descending sort. -/
theorem sortDescKey_mem {α : Type} (key : α → Nat) (y : α) :
    ∀ l, y ∈ sortDescKey key l ↔ y ∈ l
  | [] => Iff.rfl
  | x :: xs => by
    simp only [sortDescKey, mem_insertDescKey, sortDescKey_mem key y xs,
      List.mem_cons]

/-- The head of the stable descending sort has the maximal key. -/
theorem sortDescKey_head_max {α : Type} (key : α → Nat) :
    ∀ (l : List α) (z : α) (zs : List α),
      sortDescKey key l = z :: zs → ∀ y ∈ l, key y ≤ key z
  | [], _, _, h => by simp [sortDescKey] at h
  | x :: xs, z, zs, h => by
    rw [sortDescKey] at h
    cases hs : sortDescKey key xs with
    | nil =>
      rw [hs] at h
      unfold insertDescKey at h
      injection h with h1 h2
      subst h1
      intro y hy
      rcases List.mem_cons.mp hy with hy | hy
      · subst hy; exact Nat.le_refl _
      · have : y ∈ sortDescKey key xs := (sortDescKey_mem key y xs).mpr hy
        rw [hs] at this
        simp at this
    | cons w ws =>
      rw [hs] at h
      unfold insertDescKey at h
      by_cases hxw : key x < key w
      · rw [if_pos hxw] at h
        injection h with h1 h2
        subst h1
        intro y hy
        rcases List.mem_cons.mp hy with hy | hy
        · subst hy; exact Nat.le_of_lt hxw
        · exact sortDescKey_head_max key xs w ws hs y hy
      · rw [if_neg hxw] at h
        injection h with h1 h2
        subst h1
        intro y hy
        rcases List.mem_cons.mp hy with hy | hy
        · subst hy; exact Nat.le_refl _
        · exact Nat.le_trans (sortDescKey_head_max key xs w ws hs y hy)
            (Nat.not_lt.mp hxw)

/-- Characterization of the semantic tier's candidate list: exactly the
non-empty element texts with strictly positive score, paired with their
score. -/
theorem mem_semanticCandidates (elements keywords : List String) (p : Nat × String) :
    p ∈ semanticCandidates elements keywords ↔
      p.2 ∈ elements ∧ p.2 ≠ "" ∧ 0 < p.1 ∧ p.1 = scoreElementMatch p.2 keywords := by
  unfold semanticCandidates
  rw [List.mem_filterMap]
  constructor
  · rintro ⟨a, ha, hf⟩
    by_cases he : (a == "") = true
    · rw [if_pos he] at hf
      exact absurd hf (by simp)
    · rw [if_neg he] at hf
      by_cases hsc : 0 < scoreElementMatch a keywords
      · rw [if_pos hsc] at hf
        injection hf with hf
        subst hf
        exact ⟨ha, by simpa [beq_iff_eq] using he, hsc, rfl⟩
      · rw [if_neg hsc] at hf
        exact absurd hf (by simp)
  · rintro ⟨hmem, hne, hpos, heq⟩
    refine ⟨p.2, hmem, ?_⟩
    rw [if_neg (by simpa [beq_iff_eq] using hne), if_pos (heq ▸ hpos)]
    rw [← heq]

/-- C3: whenever the semantic tier of click resolution selects a
candidate, the selected score is at least 50 (the confidence floor), it
is the score the scoring function assigns to the selected element text,
and it is maximal among all candidates — indeed among all non-empty
element texts. -/
theorem confidence_floor (elements keywords : List String) (sc : Nat) (t : String)
    (h : semanticPick elements keywords = some (sc, t)) :
    50 ≤ sc ∧ t ∈ elements ∧ sc = scoreElementMatch t keywords ∧
    (∀ p ∈ semanticCandidates elements keywords, p.1 ≤ sc) ∧
    (∀ e ∈ elements, e ≠ "" → scoreElementMatch e keywords ≤ sc) := by
  unfold semanticPick at h
  split at h
  · exact absurd h (by simp)
  · rename_i top tl hs
    by_cases h50 : 50 ≤ top.1
    · rw [if_pos h50] at h
      injection h with h
      subst h
      have htop : (sc, t) ∈ semanticCandidates elements keywords := by
        have : (sc, t) ∈ sortDescKey Prod.fst (semanticCandidates elements keywords) := by
          rw [hs]
          exact List.mem_cons_self _ _
        exact (sortDescKey_mem _ _ _).mp this
      have hchar := (mem_semanticCandidates elements keywords (sc, t)).mp htop
      have hmax : ∀ p ∈ semanticCandidates elements keywords, p.1 ≤ sc := by
        intro p hp
        exact sortDescKey_head_max Prod.fst _ (sc, t) tl hs p hp
      refine ⟨h50, hchar.1, hchar.2.2.2, hmax, ?_⟩
      intro e he hne
      by_cases hpos : 0 < scoreElementMatch e keywords
      · exact hmax (scoreElementMatch e keywords, e)
          ((mem_semanticCandidates elements keywords _).mpr ⟨he, hne, hpos, rfl⟩)
      · have : scoreElementMatch e keywords = 0 := Nat.eq_zero_of_not_pos hpos
        rw [this]
        exact Nat.zero_le _
    · rw [if_neg h50] at h
      exact absurd h (by simp)

/-- Closed instance of `confidence_floor`: the semantic tier over two
buttons picks the exactly-matching one with score 430, which clears the
floor and dominates every candidate. -/
theorem confidence_floor_witness :
    50 ≤ 430 ∧ "Create new project" ∈ ["Create new project", "Save"] ∧
    430 = scoreElementMatch "Create new project" (extractKeywords "create new project") ∧
    (∀ p ∈ semanticCandidates ["Create new project", "Save"]
        (extractKeywords "create new project"), p.1 ≤ 430) ∧
    (∀ e ∈ ["Create new project", "Save"], e ≠ "" →
      scoreElementMatch e (extractKeywords "create new project") ≤ 430) :=
  confidence_floor ["Create new project", "Save"]
    (extractKeywords "create new project") 430 "Create new project" (by decide)

/-- C4: the action executor always returns a boolean: an unknown action
kind yields `false` without crashing, an exception raised by the
navigate or wait primitive (or by the state-change check after a
successful click) is caught and converted to `false`, and a type action
returns the boolean its strategy chain produced. -/
theorem executor_never_throws (d : Driver) (dec : Decision) :
    (executeAction d dec = true ∨ executeAction d dec = false) ∧
    (dec.action ∉ (["click", "type", "navigate", "wait", "done"] : List String) →
      executeAction d dec = false) ∧
    (∀ e, dec.action = "navigate" → d.gotoOutcome = Except.error e →
      executeAction d dec = false) ∧
    (∀ e, dec.action = "wait" → d.waitOutcome = Except.error e →
      executeAction d dec = false) ∧
    (∀ e, dec.action = "click" → d.stateChangeOutcome = Except.error e →
      executeAction d dec = false) ∧
    (dec.action = "type" → executeAction d dec = d.typeOutcome) := by
  refine ⟨?_, ?_, ?_, ?_, ?_, ?_⟩
  · cases h : executeAction d dec
    · exact Or.inr rfl
    · exact Or.inl rfl
  · intro hn
    have h1 : dec.action ≠ "click" := fun h => hn (by simp [h])
    have h2 : dec.action ≠ "type" := fun h => hn (by simp [h])
    have h3 : dec.action ≠ "navigate" := fun h => hn (by simp [h])
    have h4 : dec.action ≠ "wait" := fun h => hn (by simp [h])
    simp [executeAction, executeActionE, h1, h2, h3, h4, Pure.pure, Except.pure]
  · intro e ha he
    simp [executeAction, executeActionE, ha, he, Bind.bind, Except.bind]
  · intro e ha he
    simp [executeAction, executeActionE, ha, he, Bind.bind, Except.bind]
  · intro e ha he
    cases hc : d.clickOutcome <;>
      simp [executeAction, executeActionE, ha, he, hc, Bind.bind, Except.bind,
        Pure.pure, Except.pure]
  · intro ha
    simp [executeAction, executeActionE, ha, Pure.pure, Except.pure]

/-- Closed instance of `executor_never_throws`: a decision of unknown
kind `scroll` is reported as a failure. -/
theorem executor_never_throws_witness :
    executeAction ⟨true, Except.ok true, true, Except.ok (), Except.ok ()⟩
      ⟨"scroll", "x", "", ""⟩ = false :=
  (executor_never_throws ⟨true, Except.ok true, true, Except.ok (), Except.ok ()⟩
    ⟨"scroll", "x", "", ""⟩).2.1 (by decide)

/-- C5 counterexample, two responses on which the claim's raw-text
inference gives the wrong answer.  First, the brace-free response
`"Please authenticate, then click next"` contains none of
done/complete/success, neither `login` nor `sign in`, and contains both
`click` and `next`, so the claim maps it to a click on `Next`; the
parser instead hits its `authenticate` branch and returns a `done`
decision.  Second, a response whose raw text likewise contains `click`
and `next` and none of the claim's earlier branch words, but which also
contains a brace substring with the quoted word action: the regex
extraction replaces the text by that substring, whose lowercase form
contains no inference keyword, so the parser returns the final `done`
decision instead of the click on `Next` the claim requires. -/
theorem parse_fallback_counterexample :
    strContains (toLowerStr (trimStr "Please authenticate, then click next")) "done" = false ∧
    strContains (toLowerStr (trimStr "Please authenticate, then click next")) "complete" = false ∧
    strContains (toLowerStr (trimStr "Please authenticate, then click next")) "success" = false ∧
    strContains (toLowerStr (trimStr "Please authenticate, then click next")) "login" = false ∧
    strContains (toLowerStr (trimStr "Please authenticate, then click next")) "sign in" = false ∧
    strContains (toLowerStr (trimStr "Please authenticate, then click next")) "click" = true ∧
    strContains (toLowerStr (trimStr "Please authenticate, then click next")) "next" = true ∧
    (parseDecisionFallback "Please authenticate, then click next").action = "done" ∧
    (parseDecisionFallback "Please authenticate, then click next").target ≠ "Next" ∧
    strContains
      (toLowerStr (trimStr
        "I could not produce \x7b\"action\": \x7d so please click the Next button"))
      "click" = true ∧
    strContains
      (toLowerStr (trimStr
        "I could not produce \x7b\"action\": \x7d so please click the Next button"))
      "next" = true ∧
    strContains
      (toLowerStr (trimStr
        "I could not produce \x7b\"action\": \x7d so please click the Next button"))
      "done" = false ∧
    strContains
      (toLowerStr (trimStr
        "I could not produce \x7b\"action\": \x7d so please click the Next button"))
      "complete" = false ∧
    strContains
      (toLowerStr (trimStr
        "I could not produce \x7b\"action\": \x7d so please click the Next button"))
      "success" = false ∧
    strContains
      (toLowerStr (trimStr
        "I could not produce \x7b\"action\": \x7d so please click the Next button"))
      "login" = false ∧
    strContains
      (toLowerStr (trimStr
        "I could not produce \x7b\"action\": \x7d so please click the Next button"))
      "sign in" = false ∧
    recoveryText "I could not produce \x7b\"action\": \x7d so please click the Next button"
      = "\x7b\"action\": \x7d" ∧
    (parseDecisionFallback
      "I could not produce \x7b\"action\": \x7d so please click the Next button").action
      = "done" ∧
    (parseDecisionFallback
      "I could not produce \x7b\"action\": \x7d so please click the Next button").target
      ≠ "Next" := by
  decide

/-- C5 amended: the recovery branch first replaces the stripped
response by its first regex-extracted brace substring containing the
quoted word action, when one exists; keyword inference over the
lowercase form of that resulting text then proceeds in order — any of
done/complete/success gives a done decision; else any of login, sign
in, or authenticate gives a done decision with a login reason; else
click with next gives a click on Next; else click with submit gives a
click on Submit; else a done decision.  The closed conjuncts check the
claim's two concrete (brace-free) examples. -/
theorem parse_fallback_amended (text : String) :
    ((∃ w ∈ (["done", "complete", "success"] : List String),
        strContains (toLowerStr (recoveryText text)) w = true) →
      parseDecisionFallback text
        = ⟨"done", "", "", "Inferred completion from response"⟩) ∧
    (¬ (∃ w ∈ (["done", "complete", "success"] : List String),
        strContains (toLowerStr (recoveryText text)) w = true) →
      (∃ w ∈ (["login", "sign in", "authenticate"] : List String),
        strContains (toLowerStr (recoveryText text)) w = true) →
      parseDecisionFallback text = ⟨"done", "", "", "Login required - stopping"⟩) ∧
    (¬ (∃ w ∈ (["done", "complete", "success"] : List String),
        strContains (toLowerStr (recoveryText text)) w = true) →
      ¬ (∃ w ∈ (["login", "sign in", "authenticate"] : List String),
        strContains (toLowerStr (recoveryText text)) w = true) →
      strContains (toLowerStr (recoveryText text)) "click" = true →
      strContains (toLowerStr (recoveryText text)) "next" = true →
      parseDecisionFallback text = ⟨"click", "Next", "", "Inferred from response"⟩) ∧
    (¬ (∃ w ∈ (["done", "complete", "success"] : List String),
        strContains (toLowerStr (recoveryText text)) w = true) →
      ¬ (∃ w ∈ (["login", "sign in", "authenticate"] : List String),
        strContains (toLowerStr (recoveryText text)) w = true) →
      strContains (toLowerStr (recoveryText text)) "next" = false →
      strContains (toLowerStr (recoveryText text)) "click" = true →
      strContains (toLowerStr (recoveryText text)) "submit" = true →
      parseDecisionFallback text = ⟨"click", "Submit", "", "Inferred from response"⟩) ∧
    (¬ (∃ w ∈ (["done", "complete", "success"] : List String),
        strContains (toLowerStr (recoveryText text)) w = true) →
      ¬ (∃ w ∈ (["login", "sign in", "authenticate"] : List String),
        strContains (toLowerStr (recoveryText text)) w = true) →
      ¬ (strContains (toLowerStr (recoveryText text)) "click" = true ∧
         strContains (toLowerStr (recoveryText text)) "next" = true) →
      ¬ (strContains (toLowerStr (recoveryText text)) "click" = true ∧
         strContains (toLowerStr (recoveryText text)) "submit" = true) →
      parseDecisionFallback text = ⟨"done", "", "", "Parse error - stopping workflow"⟩) ∧
    parseDecisionFallback "Sure! I think we are done here."
      = ⟨"done", "", "", "Inferred completion from response"⟩ ∧
    parseDecisionFallback "Now click the Next button"
      = ⟨"click", "Next", "", "Inferred from response"⟩ := by
  have anyFalse : ∀ (l : List String),
      ¬ (∃ w ∈ l, strContains (toLowerStr (recoveryText text)) w = true) →
      (l.any fun w => strContains (toLowerStr (recoveryText text)) w) = false := by
    intro l hl
    cases hany : l.any fun w => strContains (toLowerStr (recoveryText text)) w with
    | false => rfl
    | true => exact absurd (List.any_eq_true.mp hany) hl
  refine ⟨?_, ?_, ?_, ?_, ?_, by decide, by decide⟩
  · intro h1
    have ha := List.any_eq_true.mpr h1
    simp [parseDecisionFallback, ha]
  · intro h1 h2
    have ha1 := anyFalse _ h1
    have ha2 := List.any_eq_true.mpr h2
    simp [parseDecisionFallback, ha1, ha2]
  · intro h1 h2 hc hn
    have ha1 := anyFalse _ h1
    have ha2 := anyFalse _ h2
    simp [parseDecisionFallback, ha1, ha2, hc, hn]
  · intro h1 h2 hn hc hs
    have ha1 := anyFalse _ h1
    have ha2 := anyFalse _ h2
    simp [parseDecisionFallback, ha1, ha2, hc, hn, hs]
  · intro h1 h2 h3 h4
    have ha1 := anyFalse _ h1
    have ha2 := anyFalse _ h2
    by_cases hc : strContains (toLowerStr (recoveryText text)) "click" = true
    · have hn : strContains (toLowerStr (recoveryText text)) "next" = false := by
        cases hnx : strContains (toLowerStr (recoveryText text)) "next" with
        | false => rfl
        | true => exact absurd ⟨hc, hnx⟩ h3
      have hs : strContains (toLowerStr (recoveryText text)) "submit" = false := by
        cases hsx : strContains (toLowerStr (recoveryText text)) "submit" with
        | false => rfl
        | true => exact absurd ⟨hc, hsx⟩ h4
      simp [parseDecisionFallback, ha1, ha2, hc, hn, hs]
    · have hcf : strContains (toLowerStr (recoveryText text)) "click" = false :=
        Bool.not_eq_true _ ▸ hc
      simp [parseDecisionFallback, ha1, ha2, hcf]

/-- Closed instance of `parse_fallback_amended`: a text mentioning only
`sign in` is mapped to the done-with-login-reason decision. -/
theorem parse_fallback_amended_witness :
    parseDecisionFallback "You must sign in first"
      = ⟨"done", "", "", "Login required - stopping"⟩ :=
  (parse_fallback_amended "You must sign in first").2.1 (by decide) (by decide)

/-- Mapping over a filtered list is the filterMap that tests then maps. -/
theorem filter_then_map_eq_filterMap {α β : Type} (p : α → Bool) (f : α → β) :
    ∀ l : List α,
      (l.filter p).map f = l.filterMap fun a => if p a then some (f a) else none
  | [] => rfl
  | x :: xs => by
    by_cases h : p x
    · simp [List.filter_cons, h, List.filterMap_cons,
        filter_then_map_eq_filterMap p f xs]
    · simp [List.filter_cons, h, List.filterMap_cons,
        filter_then_map_eq_filterMap p f xs]

/-- The index-based window enumeration of `_extract_keywords` (a `range`
over start positions with `drop`/`take`, guarded by the length test)
produces exactly the structural sliding windows. -/
theorem windows_eq (size : Nat) (hsize : 0 < size) :
    ∀ words : List String,
      (if words.length < size then ([] : List (List String))
       else (List.range (words.length - size + 1)).map fun idx =>
         (words.drop idx).take size)
        = slideWindows size words
  | [] => by
    rw [slideWindows]
    simp [hsize]
  | w :: ws => by
    rw [slideWindows]
    by_cases hlen : (w :: ws).length < size
    · rw [if_pos hlen, if_pos hlen]
    · rw [if_neg hlen, if_neg hlen]
      have hle : size ≤ ws.length + 1 := by
        simpa [Nat.not_lt] using hlen
      rw [List.length_cons, List.range_succ_eq_map]
      rw [List.map_cons, List.map_map]
      have hhead : (List.drop 0 (w :: ws)).take size = (w :: ws).take size := rfl
      rw [hhead]
      congr 1
      have hbody : ((fun idx => ((w :: ws).drop idx).take size) ∘ Nat.succ)
          = fun idx => (ws.drop idx).take size := rfl
      rw [hbody]
      by_cases h2 : ws.length < size
      · have hz : ws.length + 1 - size = 0 := by omega
        rw [hz]
        have := windows_eq size hsize ws
        rw [if_pos h2] at this
        rw [← this]
        rfl
      · have hz : ws.length + 1 - size = ws.length - size + 1 := by omega
        rw [hz]
        have := windows_eq size hsize ws
        rw [if_neg h2] at this
        exact this

/-- The index-based, stop-word-filtered n-gram list of the source equals
the spec-worded one over sliding windows. -/
theorem gramChunks_eq_spec (size : Nat) (hsize : 0 < size) (words : List String) :
    gramChunks words size = gramChunksSpec size words := by
  unfold gramChunks gramChunksSpec
  rw [filter_then_map_eq_filterMap, ← windows_eq size hsize words]
  by_cases hlen : words.length < size
  · rw [if_pos hlen, if_pos hlen]
    rfl
  · rw [if_neg hlen, if_neg hlen, List.filterMap_map]
    rfl

/-- The seen-set de-duplication of the source equals the spec-worded
recursive de-duplication, applied to the list cleared of already-seen
keywords. -/
theorem dedupKeep_eq_spec :
    ∀ (l seen : List String),
      dedupKeep seen l = dedupSpec (l.filter fun x => !(seen.contains x))
  | [], seen => by
    rw [dedupKeep, List.filter_nil, dedupSpec]
  | x :: xs, seen => by
    rw [dedupKeep, List.filter_cons]
    by_cases hc : seen.contains x
    · rw [if_pos hc, if_neg (by rw [hc]; decide)]
      exact dedupKeep_eq_spec xs seen
    · rw [Bool.not_eq_true] at hc
      rw [if_neg (by rw [hc]; decide), if_pos (by rw [hc]; decide), dedupSpec,
        dedupKeep_eq_spec xs (x :: seen), List.filter_filter]
      have hfun : (fun (y : String) => !((x :: seen).contains y))
          = fun a => !(a == x) && !(seen.contains a) := by
        funext a
        simp only [List.contains_cons, Bool.not_or]
      rw [hfun]

/-- C6 counterexample: for the input `"create the project"` the
extractor's n-gram pass slides over the original token sequence and
discards every window containing the stop word `the`, so the 2-gram
`create project` promised by the claim never appears; the full output is
just the two sorted single tokens. -/
theorem extract_keywords_counterexample :
    extractKeywords "create the project" = ["project", "create"] ∧
    ¬ ("create project" ∈ extractKeywords "create the project") := by
  decide

/-- C6 amended: the extractor produces the list obtained by lowercasing
and whitespace-splitting the input, generating all contiguous 3-word then
2-word n-grams of the original token sequence and keeping only those
whose words all lie outside the stop-word set, appending the individual
non-stop-word tokens longer than 2 characters sorted by decreasing length
with original order as tiebreak, and de-duplicating preserving first
occurrence. -/
theorem extract_keywords_amended (text : String) :
    extractKeywords text = extractKeywordsSpec text := by
  by_cases h : text == ""
  · simp only [extractKeywords, extractKeywordsSpec, if_pos h]
  · simp only [extractKeywords, extractKeywordsSpec, if_neg h]
    rw [gramChunks_eq_spec 3 (by decide), gramChunks_eq_spec 2 (by decide),
      dedupKeep_eq_spec]
    congr 1
    apply List.filter_eq_self.mpr
    intro a _
    rfl

/-- During the step loop the failure reason can only be empty,
`loop_detected`, or `action_failed`. -/
theorem runLoop_reason_inv (minSuccess : Nat) :
    ∀ (inputs : List StepInput) (stepNo : Nat) (s : RunState),
      s.failureReason = "" ∨ s.failureReason = "loop_detected" ∨
        s.failureReason = "action_failed" →
      ((runLoop minSuccess inputs stepNo s).failureReason = "" ∨
        (runLoop minSuccess inputs stepNo s).failureReason = "loop_detected" ∨
        (runLoop minSuccess inputs stepNo s).failureReason = "action_failed")
  | [], _, _, h => h
  | inp :: rest, stepNo, s, h => by
    simp only [runLoop]
    split
    · split
      · exact runLoop_reason_inv minSuccess rest _ _ h
      · exact h
    · split
      · exact Or.inr (Or.inl rfl)
      · split
        · exact runLoop_reason_inv minSuccess rest _ _ h
        · split
          · exact runLoop_reason_inv minSuccess rest _ _ (Or.inr (Or.inr rfl))
          · exact runLoop_reason_inv minSuccess rest _ _ h

/-- Terminal classification keeps the loop's counters unchanged. -/
theorem finalizeState_counters (s : RunState) :
    (finalizeState s).successfulActions = s.successfulActions ∧
      (finalizeState s).stepCount = s.stepCount ∧
      (finalizeState s).workflowCompleted = s.workflowCompleted := by
  simp only [finalizeState]
  split
  · split
    · exact ⟨rfl, rfl, rfl⟩
    · exact ⟨rfl, rfl, rfl⟩
  · split
    · exact ⟨rfl, rfl, rfl⟩
    · exact ⟨rfl, rfl, rfl⟩

/-- The outcome record copies the loop's counters unchanged. -/
theorem runOutcome_counters (s : RunState) :
    (runOutcome s).successfulActions = s.successfulActions ∧
      (runOutcome s).totalSteps = s.stepCount := by
  simp only [runOutcome]
  split
  · exact ⟨rfl, rfl⟩
  · exact ⟨rfl, rfl⟩

/-- C7 counterexample: a one-step run whose single click fails executes
zero successful actions and never triggers loop detection, yet its
terminal classification is `action_failed` — not the `no_actions`
classification the claim requires, and not any of the five
classifications the claim lists. -/
theorem terminal_classification_counterexample :
    (captureWorkflow 2 [⟨⟨"click", "X", "", "d"⟩, false⟩]).reason = "action_failed" ∧
    (captureWorkflow 2 [⟨⟨"click", "X", "", "d"⟩, false⟩]).successfulActions = 0 ∧
    (captureWorkflow 2 [⟨⟨"click", "X", "", "d"⟩, false⟩]).reason
      ∉ (["completed", "loop_detected", "max_steps_reached", "no_actions_executed"] :
          List String) := by
  decide

/-- C7 amended: every run terminates in exactly one of the five code
classifications `completed`, `loop_detected`, `action_failed`,
`max_steps_reached`, `no_actions_executed` (there is no separate
done-rejected classification), and the `no_actions_executed`
classification arises exactly when the loop ended completed with zero
successful actions and no failure reason recorded — never merely because
zero successful actions were executed. -/
theorem terminal_classification (minSuccess : Nat) (inputs : List StepInput) :
    (captureWorkflow minSuccess inputs).reason ∈
      (["completed", "loop_detected", "action_failed", "max_steps_reached",
        "no_actions_executed"] : List String) ∧
    ((captureWorkflow minSuccess inputs).reason = "no_actions_executed" ↔
      (runLoop minSuccess inputs 1 initRunState).workflowCompleted = true ∧
      (runLoop minSuccess inputs 1 initRunState).successfulActions = 0 ∧
      (runLoop minSuccess inputs 1 initRunState).failureReason = "") := by
  have hinv := runLoop_reason_inv minSuccess inputs 1 initRunState (Or.inl rfl)
  unfold captureWorkflow
  generalize hs : runLoop minSuccess inputs 1 initRunState = s
  rw [hs] at hinv
  unfold finalizeState runOutcome
  by_cases hw : s.workflowCompleted <;>
    by_cases hz : s.successfulActions = 0 <;>
      rcases hinv with hr | hr | hr <;>
        simp [hw, hz, hr]

/-- C8: at the end of the step loop — hence, since any prefix of the
oracle inputs is itself a valid input list, at every intermediate point
of a run — and in the final outcome record, the count of successful
actions never exceeds the number of steps taken. -/
theorem success_le_steps (minSuccess : Nat) (inputs : List StepInput) :
    (runLoop minSuccess inputs 1 initRunState).successfulActions ≤
      (runLoop minSuccess inputs 1 initRunState).stepCount ∧
    (captureWorkflow minSuccess inputs).successfulActions ≤
      (captureWorkflow minSuccess inputs).totalSteps := by
  have key : ∀ (ins : List StepInput) (stepNo : Nat) (s : RunState),
      s.successfulActions + 1 ≤ stepNo →
      s.successfulActions ≤ s.stepCount →
      (runLoop minSuccess ins stepNo s).successfulActions ≤
        (runLoop minSuccess ins stepNo s).stepCount := by
    intro ins
    induction ins with
    | nil => exact fun _ s _ h2 => h2
    | cons inp rest ih =>
      intro stepNo s h1 h2
      simp only [runLoop]
      split
      · split
        · exact ih (stepNo + 1) _ (Nat.le_succ_of_le h1) (Nat.le_of_succ_le h1)
        · exact Nat.le_of_succ_le h1
      · split
        · exact Nat.le_of_succ_le h1
        · split
          · exact ih (stepNo + 1) _ (Nat.succ_le_succ h1) h1
          · split
            · exact ih (stepNo + 1) _ (Nat.le_succ_of_le h1) (Nat.le_of_succ_le h1)
            · exact ih (stepNo + 1) _ (Nat.le_succ_of_le h1) (Nat.le_of_succ_le h1)
  have hloop := key inputs 1 initRunState (by decide) (by decide)
  refine ⟨hloop, ?_⟩
  unfold captureWorkflow
  rw [(runOutcome_counters _).1, (runOutcome_counters _).2,
    (finalizeState_counters _).1, (finalizeState_counters _).2.1]
  exact hloop

/-- C9 counterexample: with `MAX_STEPS=0` in the environment (and an API
key set), configuration loading succeeds with the zero value and
validation returns `True` — a zero environment-supplied value is not
rejected anywhere. -/
theorem config_counterexample :
    loadConfig (fun n =>
        if n == "MAX_STEPS" then some "0"
        else if n == "ANTHROPIC_API_KEY" then some "key" else none)
      = some ⟨some "key", "output", 0, 2⟩ ∧
    configValidate ⟨some "key", "output", 0, 2⟩ = Except.ok true ∧
    (0 : Int) ≤ 0 := by
  refine ⟨by decide, rfl, by decide⟩

/-- C9 amended: the two numeric configuration values are read from the
environment with defaults 15 and 2 and converted with Python `int`, but
no positivity validation exists: a configuration whose maximum steps or
minimum successful actions is zero or negative still passes validation,
which only checks that the API key is set and non-empty. -/
theorem config_no_positivity_check (env : String → Option String) (c : ConfigState)
    (hload : loadConfig env = some c) (hkey : c.anthropicApiKey.getD "" ≠ "")
    (hnp : c.maxSteps ≤ 0 ∨ c.minSuccessfulActions ≤ 0) :
    configValidate c = Except.ok true ∧
    some c.maxSteps = pyIntParse (getenvOr env "MAX_STEPS" "15") ∧
    some c.minSuccessfulActions
      = pyIntParse (getenvOr env "MIN_SUCCESSFUL_ACTIONS" "2") := by
  refine ⟨?_, ?_⟩
  · unfold configValidate
    rw [if_neg (by simpa [beq_iff_eq] using hkey)]
  · unfold loadConfig at hload
    split at hload
    · rename_i maxSteps minActs hm hn
      injection hload with hload
      subst hload
      exact ⟨by rw [hm], by rw [hn]⟩
    · exact absurd hload (by simp)

/-- Closed instance of `config_no_positivity_check`: an environment
supplying `MAX_STEPS=0` yields a configuration with maximum steps 0 that
validation accepts. -/
theorem config_no_positivity_check_witness :
    configValidate ⟨some "key", "output", 0, 2⟩ = Except.ok true ∧
    some (0 : Int) = pyIntParse (getenvOr (fun n =>
        if n == "MAX_STEPS" then some "0"
        else if n == "ANTHROPIC_API_KEY" then some "key" else none)
      "MAX_STEPS" "15") ∧
    some (2 : Int) = pyIntParse (getenvOr (fun n =>
        if n == "MAX_STEPS" then some "0"
        else if n == "ANTHROPIC_API_KEY" then some "key" else none)
      "MIN_SUCCESSFUL_ACTIONS" "2") :=
  config_no_positivity_check
    (fun n =>
      if n == "MAX_STEPS" then some "0"
      else if n == "ANTHROPIC_API_KEY" then some "key" else none)
    ⟨some "key", "output", 0, 2⟩ (by decide) (by decide) (Or.inl (by decide))

/-- Splitting at the first bar is taking the characters before the first
bar and the characters after it. -/
theorem splitFirstPipe_eq :
    ∀ l : List Char,
      splitFirstPipe l
        = (l.takeWhile fun c => !(c == '|'),
           (l.dropWhile fun c => !(c == '|')).drop 1)
  | [] => rfl
  | c :: cs => by
    by_cases h : (c == '|') = true
    · simp [splitFirstPipe, h, List.takeWhile_cons, List.dropWhile_cons]
    · have hb : (c == '|') = false := by rwa [Bool.not_eq_true] at h
      simp [splitFirstPipe, hb, splitFirstPipe_eq cs, List.takeWhile_cons,
        List.dropWhile_cons]

/-- C10: a type action with non-empty text is never rewritten by the
bar-split; with empty text and a bar in the target, the executor uses the
characters before the first bar as the target and those after it as the
text, falling back to the `Test Project` placeholder only when the part
after the bar is itself empty; with empty text and no bar, only the
placeholder default applies. -/
theorem type_pipe_split (target text : String) :
    (text ≠ "" → resolveTypeText target text = (target, text)) ∧
    (text = "" → '|' ∈ target.data →
      resolveTypeText target text
        = (String.mk (target.data.takeWhile fun c => !(c == '|')),
           if String.mk ((target.data.dropWhile fun c => !(c == '|')).drop 1) = ""
           then "Test Project"
           else String.mk ((target.data.dropWhile fun c => !(c == '|')).drop 1))) ∧
    (text = "" → '|' ∉ target.data →
      resolveTypeText target text = (target, "Test Project")) := by
  refine ⟨?_, ?_, ?_⟩
  · intro hne
    have hbe : (text == "") = false := by simp [hne]
    simp [resolveTypeText, hbe]
  · intro hempty hbar
    subst hempty
    by_cases hrest :
        String.mk ((target.data.dropWhile fun c => !(c == '|')).tail) = ""
    · simp [resolveTypeText, splitFirstPipe_eq, hbar, List.drop_one, hrest]
    · simp [resolveTypeText, splitFirstPipe_eq, hbar, List.drop_one, hrest]
  · intro hempty hnobar
    subst hempty
    simp [resolveTypeText, hnobar]

/-- Closed instance of `type_pipe_split`: the target
`name-input|My Title` with empty text splits into target `name-input`
and text `My Title`. -/
theorem type_pipe_split_witness :
    resolveTypeText "name-input|My Title" "" = ("name-input", "My Title") :=
  (type_pipe_split "name-input|My Title" "").2.1 rfl (by decide)

end FlowLens
